import Mathlib

/-!
Verification development for the task-list (to-do) application.

The task-store state manager lives in `src/components/Todo.tsx`; its data
model is `src/types/todo.ts`.  The definitions below are a shallow
embedding of that code: the component state becomes an explicit `AppState`
record, each handler becomes a pure state-transition function returning the
new state together with the toast it raises, timestamps (`new Date()`)
become explicit `now : Nat` parameters (milliseconds since the epoch), and
the freshly generated id (`crypto.randomUUID()`) becomes an explicit
`newId : String` parameter.

The component also touches browser primitives whose code is not part of
the repository: `localStorage` (modelled as a `String to Option String`
map with `getItem`/`setItem`), `JSON.stringify`/`JSON.parse` (modelled by
`jsonStringify`/`jsonParse` over the `JVal` fragment of JSON the component
actually stores, including `JSON.stringify`'s string escaping and its use
of `Date.prototype.toJSON`), and the `Date` serialization itself (modelled
by `isoOfMillis`, the ISO-8601 UTC rendering of an epoch-millisecond value,
via the standard civil-from-days calendar conversion).
-/


/-! ## The task store: state and operations -/


/-- Embedding of the `Todo` record from `src/types/todo.ts`, with the
optional `updatedAt` field the component adds on toggle and edit.
`createdAt`/`updatedAt` are epoch milliseconds (the payload of a JS `Date`). -/
structure Todo where
  id : String
  text : String
  completed : Bool
  createdAt : Nat
  updatedAt : Option Nat := none
deriving Repr, DecidableEq

/-- Toast notifications raised by the handlers (`react-toastify` calls);
the constructor distinguishes `toast.error` / `toast.success` / `toast.info`. -/
inductive Toast where
  | error (msg : String)
  | success (msg : String)
  | info (msg : String)
deriving Repr, DecidableEq

/-- Embedding of the `TodoApp` component state: the `useState` cells
`todos`, `inputValue`, `editingId`, `editValue` and `isDarkMode`. -/
structure AppState where
  todos : List Todo
  inputValue : String
  editingId : Option String
  editValue : String
  isDarkMode : Bool
deriving Repr, DecidableEq

/-- Embedding of `addTodo` (Todo.tsx lines 53-68): if the trimmed input is
empty raise `toast.error` and change nothing; otherwise append a new task
built from the trimmed input with `completed = false`, `createdAt = now`
and no `updatedAt`, and clear the input field. -/
def addTodo (st : AppState) (newId : String) (now : Nat) : AppState × Toast :=
  if st.inputValue.trim = "" then
    (st, Toast.error "Please enter a task!")
  else
    ({ st with
        todos := st.todos ++
          [{ id := newId, text := st.inputValue.trim, completed := false,
             createdAt := now, updatedAt := none }],
        inputValue := "" },
     Toast.success "Task added successfully!")

/-- Embedding of `toggleTodo` (Todo.tsx lines 70-75): map over the list,
flipping `completed` and setting `updatedAt` on every task whose id matches. -/
def toggleTodo (st : AppState) (id : String) (now : Nat) : AppState × Toast :=
  ({ st with
      todos := st.todos.map fun todo =>
        if todo.id = id then
          { todo with completed := !todo.completed, updatedAt := some now }
        else todo },
   Toast.info "Task status updated!")

/-- Embedding of `startEditing` (Todo.tsx lines 77-80). -/
def startEditing (st : AppState) (todo : Todo) : AppState :=
  { st with editingId := some todo.id, editValue := todo.text }

/-- Embedding of `cancelEditing` (Todo.tsx lines 82-85). -/
def cancelEditing (st : AppState) : AppState :=
  { st with editingId := none, editValue := "" }

/-- Embedding of `saveEdit` (Todo.tsx lines 87-98): if the trimmed edit
value is empty raise `toast.error` and change nothing; otherwise replace
the matching task's text, set its `updatedAt`, and clear the edit selection. -/
def saveEdit (st : AppState) (id : String) (now : Nat) : AppState × Toast :=
  if st.editValue.trim = "" then
    (st, Toast.error "Task cannot be empty!")
  else
    ({ st with
        todos := st.todos.map fun todo =>
          if todo.id = id then
            { todo with text := st.editValue.trim, updatedAt := some now }
          else todo,
        editingId := none,
        editValue := "" },
     Toast.success "Task updated successfully!")

/-- Embedding of `deleteTodo` (Todo.tsx lines 100-103): keep the tasks
whose id differs. -/
def deleteTodo (st : AppState) (id : String) : AppState × Toast :=
  ({ st with todos := st.todos.filter fun todo => todo.id ≠ id },
   Toast.success "Task deleted successfully!")

/-- Embedding of `toggleDarkMode` (Todo.tsx lines 105-107). -/
def toggleDarkMode (st : AppState) : AppState :=
  { st with isDarkMode := !st.isDarkMode }

/-- Embedding of the derived `remaining` value (Todo.tsx line 20):
`todos.filter(todo => !todo.completed).length`, recomputed from the
collection on every render, never stored. -/
def remaining (st : AppState) : Nat :=
  (st.todos.filter fun todo => !todo.completed).length

/-! ## Model of the browser platform

`JSON.stringify`, `JSON.parse`, `Date.prototype.toJSON` (ISO-8601
serialization of dates) and `localStorage` are platform primitives whose
code is not in the repository; they are modelled here, restricted to the
JSON fragment the component stores. -/


/-- Day-of-era decomposition of a day number shifted to the 0000-03-01 epoch. -/
def doeOf (z : Nat) : Nat := (z + 719468) % 146097

def eraOf (z : Nat) : Nat := (z + 719468) / 146097

def centOf (doe : Nat) : Nat := (4 * doe + 3) / 146097

def docOf (doe : Nat) : Nat := doe - 146097 * centOf doe / 4

def ycOf (doc : Nat) : Nat := (4 * doc + 3) / 1461

def doyOf (doc : Nat) : Nat := doc - 1461 * ycOf doc / 4

def yoeOf (doe : Nat) : Nat := 100 * centOf doe + ycOf (docOf doe)

def mpOf (doy : Nat) : Nat := (5 * doy + 2) / 153

def monthOf (doy : Nat) : Nat := if mpOf doy < 10 then mpOf doy + 3 else mpOf doy - 9

def dayOf (doy : Nat) : Nat := doy - (153 * mpOf doy + 2) / 5 + 1

/-- Civil date (year, month, day) of a day count since 1970-01-01, the
standard era/century decomposition of the proleptic Gregorian calendar
(what the JS `Date` UTC accessors compute). -/
def civilFromDays (z : Nat) : Nat × Nat × Nat :=
  let m := monthOf (doyOf (docOf (doeOf z)))
  let y := yoeOf (doeOf z) + eraOf z * 400
  (if m ≤ 2 then y + 1 else y, m, dayOf (doyOf (docOf (doeOf z))))

/-- Day count since 1970-01-01 of a civil date; inverse of `civilFromDays`. -/
def daysFromCivil (y m d : Nat) : Nat :=
  let yy := y - (if m ≤ 2 then 1 else 0)
  let era := yy / 400
  let yoe := yy % 400
  let doy := (153 * (if 2 < m then m - 3 else m + 9) + 2) / 5 + d - 1
  let doe := yoe * 365 + yoe / 4 - yoe / 100 + doy
  era * 146097 + doe - 719468

/-- The decimal digit character for a value below 10. -/
def digitChar (n : Nat) : Char := Char.ofNat (48 + n)

/-- Decimal digit list of a number, most significant first. -/
def natDigits (n : Nat) : List Char :=
  if n < 10 then [digitChar n]
  else natDigits (n / 10) ++ [digitChar (n % 10)]
decreasing_by omega

/-- Consume leading decimal digits, accumulating their value. -/
def readNatAux : List Char → Nat → Nat × List Char
  | [], acc => (acc, [])
  | c :: cs, acc => if c.isDigit then readNatAux cs (10 * acc + (c.toNat - 48)) else (acc, c :: cs)

def readNat : List Char → Option (Nat × List Char)
  | [] => none
  | c :: cs => if c.isDigit then some (readNatAux (c :: cs) 0) else none

def headNotDigit : List Char → Bool
  | [] => true
  | c :: _ => !c.isDigit

/-- A number rendered as exactly two digits (zero padded). -/
def pad2L (n : Nat) : List Char :=
  if n < 10 then '0' :: natDigits n else natDigits n

def pad3L (n : Nat) : List Char :=
  if n < 10 then '0' :: '0' :: natDigits n
  else if n < 100 then '0' :: natDigits n
  else natDigits n

def pad4L (n : Nat) : List Char :=
  if n < 10 then '0' :: '0' :: '0' :: natDigits n
  else if n < 100 then '0' :: '0' :: natDigits n
  else if n < 1000 then '0' :: natDigits n
  else natDigits n

def expectChar (c : Char) : List Char → Option (List Char)
  | d :: cs => if d = c then some cs else none
  | [] => none

/-- The character list of `new Date(t).toJSON()`: the ISO-8601 UTC form
`YYYY-MM-DDTHH:MM:SS.mmmZ` of an epoch-millisecond value. -/
def isoChars (t : Nat) : List Char :=
  pad4L (civilFromDays (t / 86400000)).1 ++
  ('-' :: (pad2L (civilFromDays (t / 86400000)).2.1 ++
  ('-' :: (pad2L (civilFromDays (t / 86400000)).2.2 ++
  ('T' :: (pad2L (t % 86400000 / 3600000) ++
  (':' :: (pad2L (t % 86400000 / 60000 % 60) ++
  (':' :: (pad2L (t % 86400000 / 1000 % 60) ++
  ('.' :: (pad3L (t % 86400000 % 1000) ++ ['Z']))))))))))))

def readField (sep : Char) (cs : List Char) : Option (Nat × List Char) :=
  (readNat cs).bind fun p => (expectChar sep p.2).bind fun rest => some (p.1, rest)

/-- Parse an ISO-8601 UTC timestamp back to epoch milliseconds
(the `Date` reconstruction a reload performs). -/
def isoToMillisChars (cs : List Char) : Option Nat :=
  match readField '-' cs with
  | none => none
  | some (y, cs1) =>
  match readField '-' cs1 with
  | none => none
  | some (mo, cs2) =>
  match readField 'T' cs2 with
  | none => none
  | some (da, cs3) =>
  match readField ':' cs3 with
  | none => none
  | some (hh, cs4) =>
  match readField ':' cs4 with
  | none => none
  | some (mi, cs5) =>
  match readField '.' cs5 with
  | none => none
  | some (ss, cs6) =>
  match readField 'Z' cs6 with
  | none => none
  | some (ms, cs7) =>
  match cs7 with
  | [] => some (daysFromCivil y mo da * 86400000 +
      hh * 3600000 + mi * 60000 + ss * 1000 + ms)
  | _ => none

/-- The fragment of JSON values the component stores: booleans, strings,
dates (a `Date` object about to be serialized), arrays, and objects with
string keys.  `JSON.stringify` turns a `jdate` into its ISO string via
`Date.prototype.toJSON`; `JSON.parse` has no date type, so parsing returns
strings where dates were. -/
inductive JVal where
  | jbool (b : Bool)
  | jstr (s : String)
  | jdate (t : Nat)
  | jarr (xs : List JVal)
  | jobj (fs : List (String × JVal))

def hexDigit (n : Nat) : Char := Char.ofNat (if n < 10 then 48 + n else 87 + n)

/-- `JSON.stringify`'s escaping of one string character (the `quote`
routine): the two-character escapes, `\u00XX` for other control
characters, and everything else literal. -/
def escapeChar (c : Char) : List Char :=
  if c = '"' then ['\\', '"']
  else if c = '\\' then ['\\', '\\']
  else if c = '\n' then ['\\', 'n']
  else if c = '\t' then ['\\', 't']
  else if c = '\r' then ['\\', 'r']
  else if c = '\x08' then ['\\', 'b']
  else if c = '\x0c' then ['\\', 'f']
  else if c.toNat < 32 then ['\\', 'u', '0', '0', hexDigit (c.toNat / 16), hexDigit (c.toNat % 16)]
  else [c]

def escapeL : List Char → List Char
  | [] => []
  | c :: cs => escapeChar c ++ escapeL cs

def hexVal (c : Char) : Option Nat :=
  if '0' ≤ c ∧ c ≤ '9' then some (c.toNat - 48)
  else if 'a' ≤ c ∧ c ≤ 'f' then some (c.toNat - 87)
  else if 'A' ≤ c ∧ c ≤ 'F' then some (c.toNat - 55)
  else none

def unescapeChar (c : Char) : Option Char :=
  if c = '"' then some '"'
  else if c = '\\' then some '\\'
  else if c = '/' then some '/'
  else if c = 'b' then some '\x08'
  else if c = 'f' then some '\x0c'
  else if c = 'n' then some '\n'
  else if c = 'r' then some '\r'
  else if c = 't' then some '\t'
  else none

/-- `JSON.parse`'s string scanner: consume characters up to the closing
quote, decoding backslash escapes. -/
def parseStringBody : List Char → Option (List Char × List Char)
  | [] => none
  | '"' :: rest => some ([], rest)
  | '\\' :: 'u' :: a :: b :: c :: d :: rest =>
    (match hexVal a, hexVal b, hexVal c, hexVal d with
     | some ha, some hb, some hc, some hd =>
       (match parseStringBody rest with
        | some p => some (Char.ofNat (((ha * 16 + hb) * 16 + hc) * 16 + hd) :: p.1, p.2)
        | none => none)
     | _, _, _, _ => none)
  | '\\' :: e :: rest =>
    (match unescapeChar e with
     | some c =>
       (match parseStringBody rest with
        | some p => some (c :: p.1, p.2)
        | none => none)
     | none => none)
  | c :: rest =>
    if c.toNat < 32 then none
    else
      (match parseStringBody rest with
       | some p => some (c :: p.1, p.2)
       | none => none)

/-- `new Date(t).toJSON()` as a `String`. -/
def isoOfMillis (t : Nat) : String := String.mk (isoChars t)

mutual

/-- `JSON.stringify` rendering of a `JVal` as a character list:
booleans as keywords, strings quoted and escaped, dates as quoted ISO
strings, arrays and objects with comma-separated members. -/
def emitVal : JVal → List Char
  | JVal.jbool true => ['t', 'r', 'u', 'e']
  | JVal.jbool false => ['f', 'a', 'l', 's', 'e']
  | JVal.jstr s => '"' :: (escapeL s.data ++ ['"'])
  | JVal.jdate t => '"' :: (escapeL (isoChars t) ++ ['"'])
  | JVal.jarr [] => ['[', ']']
  | JVal.jarr (x :: xs) => '[' :: (emitVal x ++ emitArrTail xs)
  | JVal.jobj [] => ['\x7b', '\x7d']
  | JVal.jobj (f :: fs) => '\x7b' :: (emitField f ++ emitObjTail fs)

def emitField : String × JVal → List Char
  | (k, v) => '"' :: (escapeL k.data ++ ('"' :: (':' :: emitVal v)))

def emitArrTail : List JVal → List Char
  | [] => [']']
  | x :: xs => ',' :: (emitVal x ++ emitArrTail xs)

def emitObjTail : List (String × JVal) → List Char
  | [] => ['\x7d']
  | f :: fs => ',' :: (emitField f ++ emitObjTail fs)

end

mutual

/-- The value `JSON.parse` would return for the serialized form of a
`JVal`: dates collapse to their ISO strings, the rest is unchanged. -/
def encodeVal : JVal → JVal
  | JVal.jbool b => JVal.jbool b
  | JVal.jstr s => JVal.jstr s
  | JVal.jdate t => JVal.jstr (isoOfMillis t)
  | JVal.jarr xs => JVal.jarr (encodeList xs)
  | JVal.jobj fs => JVal.jobj (encodeFields fs)

def encodeList : List JVal → List JVal
  | [] => []
  | x :: xs => encodeVal x :: encodeList xs

def encodeFields : List (String × JVal) → List (String × JVal)
  | [] => []
  | f :: fs => (f.1, encodeVal f.2) :: encodeFields fs

end

mutual

/-- `JSON.parse` (recursive descent over the stored fragment, fueled to
make termination structural): returns the parsed value and the unconsumed
rest, or `none` on malformed input. -/
def parseVal : Nat → List Char → Option (JVal × List Char)
  | 0, _ => none
  | fuel + 1, cs =>
    match cs with
    | 't' :: 'r' :: 'u' :: 'e' :: rest => some (JVal.jbool true, rest)
    | 'f' :: 'a' :: 'l' :: 's' :: 'e' :: rest => some (JVal.jbool false, rest)
    | '"' :: rest =>
      (match parseStringBody rest with
       | some p => some (JVal.jstr (String.mk p.1), p.2)
       | none => none)
    | '[' :: ']' :: rest => some (JVal.jarr [], rest)
    | '[' :: rest =>
      (match parseVal fuel rest with
       | some p =>
         (match parseArrTail fuel p.2 with
          | some q => some (JVal.jarr (p.1 :: q.1), q.2)
          | none => none)
       | none => none)
    | '\x7b' :: '\x7d' :: rest => some (JVal.jobj [], rest)
    | '\x7b' :: rest =>
      (match parseField fuel rest with
       | some p =>
         (match parseObjTail fuel p.2 with
          | some q => some (JVal.jobj (p.1 :: q.1), q.2)
          | none => none)
       | none => none)
    | _ => none

def parseField : Nat → List Char → Option ((String × JVal) × List Char)
  | 0, _ => none
  | fuel + 1, cs =>
    match cs with
    | '"' :: rest =>
      (match parseStringBody rest with
       | some p =>
         (match p.2 with
          | ':' :: rest2 =>
            (match parseVal fuel rest2 with
             | some q => some ((String.mk p.1, q.1), q.2)
             | none => none)
          | _ => none)
       | none => none)
    | _ => none

def parseArrTail : Nat → List Char → Option (List JVal × List Char)
  | 0, _ => none
  | fuel + 1, cs =>
    match cs with
    | ']' :: rest => some ([], rest)
    | ',' :: rest =>
      (match parseVal fuel rest with
       | some p =>
         (match parseArrTail fuel p.2 with
          | some q => some (p.1 :: q.1, q.2)
          | none => none)
       | none => none)
    | _ => none

def parseObjTail : Nat → List Char → Option (List (String × JVal) × List Char)
  | 0, _ => none
  | fuel + 1, cs =>
    match cs with
    | '\x7d' :: rest => some ([], rest)
    | ',' :: rest =>
      (match parseField fuel rest with
       | some p =>
         (match parseObjTail fuel p.2 with
          | some q => some (p.1 :: q.1, q.2)
          | none => none)
       | none => none)
    | _ => none

end

/-- `JSON.stringify` on the stored fragment. -/
def jsonStringify (v : JVal) : String := String.mk (emitVal v)

/-- `JSON.parse`: the whole input must parse with nothing left over;
a malformed input yields an error (a thrown `SyntaxError`), modelled as
`Except.error`. -/
def jsonParse (s : String) : Except String JVal :=
  match parseVal (s.data.length + 1) s.data with
  | some (v, []) => Except.ok v
  | some _ => Except.error "Unexpected non-whitespace character after JSON data"
  | none => Except.error "Unexpected token"

/-- The `JVal` form of a task as the component holds it in memory
(dates still dates), the argument `JSON.stringify` receives. -/
def todoToJ (td : Todo) : JVal :=
  match td.updatedAt with
  | none => JVal.jobj [("id", JVal.jstr td.id), ("text", JVal.jstr td.text),
      ("completed", JVal.jbool td.completed), ("createdAt", JVal.jdate td.createdAt)]
  | some u => JVal.jobj [("id", JVal.jstr td.id), ("text", JVal.jstr td.text),
      ("completed", JVal.jbool td.completed), ("createdAt", JVal.jdate td.createdAt),
      ("updatedAt", JVal.jdate u)]

/-- The persistence effect (Todo.tsx lines 22-24):
`JSON.stringify(todos)` written under the `todos` key. -/
def persistTodos (todos : List Todo) : String :=
  jsonStringify (JVal.jarr (todos.map todoToJ))

/-- The `todos` useState initializer (Todo.tsx lines 8-11):
`savedTodos ? JSON.parse(savedTodos) : []` — an absent key or the empty
string (both falsy) default to `[]`; any other string goes through
`JSON.parse`, and there is no try/catch around it. -/
def initTodos (saved : Option String) : Except String JVal :=
  match saved with
  | none => Except.ok (JVal.jarr [])
  | some s => if s = "" then Except.ok (JVal.jarr []) else jsonParse s

/-- The `isDarkMode` useState initializer (Todo.tsx lines 13-16):
`savedMode ? JSON.parse(savedMode) : false`. -/
def initDarkMode (saved : Option String) : Except String JVal :=
  match saved with
  | none => Except.ok (JVal.jbool false)
  | some s => if s = "" then Except.ok (JVal.jbool false) else jsonParse s

/-- The `JVal` a reload yields for a stored task: what `JSON.parse`
returns for its serialized form (dates now ISO strings). -/
def reloadedTodoJ (td : Todo) : JVal :=
  match td.updatedAt with
  | none => JVal.jobj [("id", JVal.jstr td.id), ("text", JVal.jstr td.text),
      ("completed", JVal.jbool td.completed),
      ("createdAt", JVal.jstr (isoOfMillis td.createdAt))]
  | some u => JVal.jobj [("id", JVal.jstr td.id), ("text", JVal.jstr td.text),
      ("completed", JVal.jbool td.completed),
      ("createdAt", JVal.jstr (isoOfMillis td.createdAt)),
      ("updatedAt", JVal.jstr (isoOfMillis u))]

/-- ISO timestamp string back to epoch milliseconds. -/
def isoToMillis (s : String) : Option Nat := isoToMillisChars s.data

/-- Read a reloaded task object back into the `Todo` record, turning the
ISO date strings back into epoch milliseconds (the shape the rest of the
component then operates on). -/
def decodeTodo (v : JVal) : Option Todo :=
  match v with
  | JVal.jobj [("id", JVal.jstr i), ("text", JVal.jstr tx), ("completed", JVal.jbool c),
      ("createdAt", JVal.jstr d)] =>
    (match isoToMillis d with
     | some t => some (Todo.mk i tx c t none)
     | none => none)
  | JVal.jobj [("id", JVal.jstr i), ("text", JVal.jstr tx), ("completed", JVal.jbool c),
      ("createdAt", JVal.jstr d), ("updatedAt", JVal.jstr u)] =>
    (match isoToMillis d, isoToMillis u with
     | some t, some tu => some (Todo.mk i tx c t (some tu))
     | _, _ => none)
  | _ => none

/-- Read a reloaded `todos` array back into a task list. -/
def decodeTodos (v : JVal) : Option (List Todo) :=
  match v with
  | JVal.jarr xs => xs.mapM decodeTodo
  | _ => none

/-- `localStorage.setItem` over a key-value map. -/
def setItem (store : String → Option String) (key value : String) : String → Option String :=
  fun k => if k = key then some value else store k

/-- `localStorage.getItem` over a key-value map. -/
def getItem (store : String → Option String) (key : String) : Option String := store key

/-! ## Facts about the platform model -/


theorem cent_facts (doe : Nat) (h : doe ≤ 146096) :
    centOf doe ≤ 3 ∧ docOf doe ≤ 36524 ∧ 146097 * centOf doe / 4 + docOf doe = doe := by
  unfold docOf centOf
  omega

theorem yc_facts (doc : Nat) (h : doc ≤ 36524) :
    ycOf doc ≤ 99 ∧ doyOf doc ≤ 365 ∧ 1461 * ycOf doc / 4 + doyOf doc = doc := by
  unfold doyOf ycOf
  omega

theorem month_inv_hi (doy : Nat) (h : doy ≤ 365) (hm : 2 < monthOf doy) :
    (153 * (monthOf doy - 3) + 2) / 5 + dayOf doy - 1 = doy := by
  unfold monthOf dayOf mpOf at *
  split at hm <;> split <;> omega

theorem month_inv_lo (doy : Nat) (h : doy ≤ 365) (hm : ¬ 2 < monthOf doy) :
    (153 * (monthOf doy + 9) + 2) / 5 + dayOf doy - 1 = doy := by
  unfold monthOf dayOf mpOf at *
  split at hm <;> split <;> omega

theorem yoe_facts (doe : Nat) (h : doe ≤ 146096) :
    yoeOf doe ≤ 399 ∧
    365 * yoeOf doe + yoeOf doe / 4 - yoeOf doe / 100 + doyOf (docOf doe) = doe := by
  obtain ⟨h1, h2, h3⟩ := cent_facts doe h
  obtain ⟨h4, h5, h6⟩ := yc_facts (docOf doe) h2
  unfold yoeOf
  generalize hA : centOf doe = a at *
  generalize hC : ycOf (docOf doe) = c at *
  have e0 : 146097 * a / 4 = 36524 * a + a / 4 := by
    have hq : 146097 * a = a + 36524 * a * 4 := by ring
    rw [hq, Nat.add_mul_div_right _ _ (by norm_num : (0:Nat) < 4)]
    omega
  have e1 : 1461 * c / 4 = 365 * c + c / 4 := by
    have hq : 1461 * c = c + 365 * c * 4 := by ring
    rw [hq, Nat.add_mul_div_right _ _ (by norm_num : (0:Nat) < 4)]
    omega
  have e2 : (100 * a + c) / 4 = 25 * a + c / 4 := by
    have hq : 100 * a + c = c + 25 * a * 4 := by ring
    rw [hq, Nat.add_mul_div_right _ _ (by norm_num : (0:Nat) < 4)]
    omega
  have e3 : (100 * a + c) / 100 = a := by
    have hq : 100 * a + c = c + a * 100 := by ring
    rw [hq, Nat.add_mul_div_right _ _ (by norm_num : (0:Nat) < 100)]
    omega
  omega

theorem div400_facts (yoe era : Nat) (h : yoe ≤ 399) :
    (yoe + era * 400) / 400 = era ∧ (yoe + era * 400) % 400 = yoe := by
  constructor
  · rw [Nat.add_mul_div_right _ _ (by norm_num : (0:Nat) < 400)]
    rw [Nat.div_eq_of_lt (by omega)]
    omega
  · rw [Nat.add_mul_mod_self_right]
    exact Nat.mod_eq_of_lt (by omega)

theorem days_assemble (z era doe yoe doy m d : Nat)
    (hz : era * 146097 + doe = z + 719468)
    (hyoe : yoe ≤ 399)
    (hrec : 365 * yoe + yoe / 4 - yoe / 100 + doy = doe)
    (hm1 : m ≤ 2 → (153 * (m + 9) + 2) / 5 + d - 1 = doy)
    (hm2 : 2 < m → (153 * (m - 3) + 2) / 5 + d - 1 = doy) :
    daysFromCivil (if m ≤ 2 then yoe + era * 400 + 1 else yoe + era * 400) m d = z := by
  have h400 := div400_facts yoe era hyoe
  simp only [daysFromCivil]
  by_cases hc : m ≤ 2
  · rw [if_pos hc, if_pos hc, Nat.add_sub_cancel, h400.1, h400.2,
      if_neg (by omega : ¬ 2 < m), hm1 hc]
    omega
  · rw [if_neg hc, if_neg hc, Nat.sub_zero, h400.1, h400.2,
      if_pos (by omega : 2 < m), hm2 (by omega)]
    omega

set_option maxRecDepth 10000 in
theorem civil_roundtrip (z : Nat) :
    daysFromCivil (civilFromDays z).1 (civilFromDays z).2.1 (civilFromDays z).2.2 = z := by
  have hdoe : doeOf z ≤ 146096 := by unfold doeOf; omega
  have hz : eraOf z * 146097 + doeOf z = z + 719468 := by unfold eraOf doeOf; omega
  have hC := cent_facts (doeOf z) hdoe
  have hY := yc_facts (docOf (doeOf z)) hC.2.1
  have hU := yoe_facts (doeOf z) hdoe
  simp only [civilFromDays]
  exact days_assemble z (eraOf z) (doeOf z) (yoeOf (doeOf z)) (doyOf (docOf (doeOf z)))
    (monthOf (doyOf (docOf (doeOf z)))) (dayOf (doyOf (docOf (doeOf z))))
    hz hU.1 hU.2
    (fun h => month_inv_lo (doyOf (docOf (doeOf z))) hY.2.1 (by omega))
    (fun h => month_inv_hi (doyOf (docOf (doeOf z))) hY.2.1 h)

theorem digitChar_isDigit (n : Nat) (h : n < 10) : (digitChar n).isDigit = true := by
  interval_cases n <;> decide

theorem digitChar_toNat (n : Nat) (h : n < 10) : (digitChar n).toNat = 48 + n := by
  interval_cases n <;> decide

theorem readNatAux_stop (t : List Char) (acc : Nat) (ht : headNotDigit t = true) :
    readNatAux t acc = (acc, t) := by
  cases t with
  | nil => rfl
  | cons c cs =>
    simp only [headNotDigit, Bool.not_eq_true'] at ht
    simp [readNatAux, ht]

theorem readNatAux_digits (n : Nat) :
    ∀ t acc, ∃ k, 0 < k ∧ readNatAux (natDigits n ++ t) acc = readNatAux t (acc * k + n) := by
  induction n using Nat.strong_induction_on with
  | _ n ih =>
    intro t acc
    rw [natDigits]
    split
    · refine ⟨10, by omega, ?_⟩
      rename_i h
      simp only [List.cons_append, List.nil_append]
      rw [readNatAux, if_pos (digitChar_isDigit n h), digitChar_toNat n h]
      congr 1
      omega
    · rename_i h
      obtain ⟨k1, hk1, he⟩ := ih (n / 10) (by omega) (digitChar (n % 10) :: t) acc
      refine ⟨10 * k1, by omega, ?_⟩
      rw [List.append_assoc, List.singleton_append, he, readNatAux,
        if_pos (digitChar_isDigit _ (by omega)), digitChar_toNat _ (by omega)]
      congr 1
      have hr : acc * (10 * k1) = 10 * (acc * k1) := by ring
      omega

theorem natDigits_all (n : Nat) : ∀ c ∈ natDigits n, c.isDigit = true := by
  induction n using Nat.strong_induction_on with
  | _ n ih =>
    intro c hc
    rw [natDigits] at hc
    split at hc
    · rename_i h
      simp only [List.mem_singleton] at hc
      subst hc
      exact digitChar_isDigit n h
    · rename_i h
      rcases List.mem_append.mp hc with h1 | h1
      · exact ih (n / 10) (by omega) c h1
      · simp only [List.mem_singleton] at h1
        subst h1
        exact digitChar_isDigit _ (by omega)

theorem natDigits_ne_nil (n : Nat) : natDigits n ≠ [] := by
  rw [natDigits]
  split
  · simp
  · simp

theorem readNat_digits (n : Nat) (t : List Char) (ht : headNotDigit t = true) :
    readNat (natDigits n ++ t) = some (n, t) := by
  obtain ⟨k, hk, he⟩ := readNatAux_digits n t 0
  cases hnd : natDigits n with
  | nil => exact absurd hnd (natDigits_ne_nil n)
  | cons c cs =>
    have hcd : c.isDigit = true := natDigits_all n c (by rw [hnd]; exact List.mem_cons_self c cs)
    rw [hnd] at he
    simp only [List.cons_append] at he ⊢
    rw [readNat, if_pos hcd, he, readNatAux_stop t _ ht]
    congr 2
    omega

theorem readNatAux_zero_step (cs : List Char) (acc : Nat) :
    readNatAux ('0' :: cs) acc = readNatAux cs (10 * acc) := by
  rw [readNatAux, if_pos (by decide)]
  congr 1

theorem readNatAux_digits0 (n : Nat) (t : List Char) (ht : headNotDigit t = true) :
    readNatAux (natDigits n ++ t) 0 = (n, t) := by
  obtain ⟨k, hk, he⟩ := readNatAux_digits n t 0
  rw [he, readNatAux_stop t _ ht]
  congr 1
  omega

theorem readNat_zeros {n : Nat} {t : List Char} (cs : List Char)
    (hcs : readNatAux cs 0 = (n, t)) :
    readNat ('0' :: cs) = some (n, t) := by
  rw [readNat, if_pos (by decide), readNatAux_zero_step]
  simpa using hcs

theorem readNat_pad2 (n : Nat) (t : List Char) (ht : headNotDigit t = true) :
    readNat (pad2L n ++ t) = some (n, t) := by
  unfold pad2L
  split
  · rw [List.cons_append]
    exact readNat_zeros _ (readNatAux_digits0 n t ht)
  · exact readNat_digits n t ht

theorem readNat_pad3 (n : Nat) (t : List Char) (ht : headNotDigit t = true) :
    readNat (pad3L n ++ t) = some (n, t) := by
  unfold pad3L
  split
  · rw [List.cons_append, List.cons_append]
    refine readNat_zeros _ ?_
    rw [readNatAux_zero_step, Nat.mul_zero, readNatAux_digits0 n t ht]
  · split
    · rw [List.cons_append]
      exact readNat_zeros _ (readNatAux_digits0 n t ht)
    · exact readNat_digits n t ht

theorem readNat_pad4 (n : Nat) (t : List Char) (ht : headNotDigit t = true) :
    readNat (pad4L n ++ t) = some (n, t) := by
  unfold pad4L
  split
  · rw [List.cons_append, List.cons_append, List.cons_append]
    refine readNat_zeros _ ?_
    rw [readNatAux_zero_step, readNatAux_zero_step, Nat.mul_zero,
      readNatAux_digits0 n t ht]
  · split
    · rw [List.cons_append, List.cons_append]
      refine readNat_zeros _ ?_
      rw [readNatAux_zero_step, Nat.mul_zero, readNatAux_digits0 n t ht]
    · split
      · rw [List.cons_append]
        exact readNat_zeros _ (readNatAux_digits0 n t ht)
      · exact readNat_digits n t ht

theorem expectChar_cons_self (c : Char) (cs : List Char) : expectChar c (c :: cs) = some cs := by
  simp [expectChar]

theorem headNotDigit_hyphen (t : List Char) : headNotDigit ('-' :: t) = true := rfl

theorem headNotDigit_T (t : List Char) : headNotDigit ('T' :: t) = true := rfl

theorem headNotDigit_colon (t : List Char) : headNotDigit (':' :: t) = true := rfl

theorem headNotDigit_dot (t : List Char) : headNotDigit ('.' :: t) = true := rfl

theorem headNotDigit_Z (t : List Char) : headNotDigit ('Z' :: t) = true := rfl

theorem readField_pad2 (sep : Char) (n : Nat) (t : List Char)
    (h : headNotDigit (sep :: t) = true) :
    readField sep (pad2L n ++ (sep :: t)) = some (n, t) := by
  rw [readField, readNat_pad2 _ _ h, Option.some_bind, expectChar_cons_self, Option.some_bind]

theorem readField_pad3 (sep : Char) (n : Nat) (t : List Char)
    (h : headNotDigit (sep :: t) = true) :
    readField sep (pad3L n ++ (sep :: t)) = some (n, t) := by
  rw [readField, readNat_pad3 _ _ h, Option.some_bind, expectChar_cons_self, Option.some_bind]

theorem readField_pad4 (sep : Char) (n : Nat) (t : List Char)
    (h : headNotDigit (sep :: t) = true) :
    readField sep (pad4L n ++ (sep :: t)) = some (n, t) := by
  rw [readField, readNat_pad4 _ _ h, Option.some_bind, expectChar_cons_self, Option.some_bind]

theorem isoParse_general (y mo da hh mi ss ms : Nat) :
    isoToMillisChars (pad4L y ++
      ('-' :: (pad2L mo ++ ('-' :: (pad2L da ++ ('T' :: (pad2L hh ++
      (':' :: (pad2L mi ++ (':' :: (pad2L ss ++
      ('.' :: (pad3L ms ++ ['Z']))))))))))))) =
    some (daysFromCivil y mo da * 86400000 + hh * 3600000 + mi * 60000 + ss * 1000 + ms) := by
  rw [isoToMillisChars]
  simp only [readField_pad4, readField_pad2, readField_pad3, headNotDigit_hyphen,
    headNotDigit_T, headNotDigit_colon, headNotDigit_dot, headNotDigit_Z]

theorem iso_roundtrip (t : Nat) : isoToMillisChars (isoChars t) = some t := by
  rw [isoChars, isoParse_general, civil_roundtrip]
  congr 1
  omega

theorem hexVal_hexDigit (n : Nat) (h : n < 16) : hexVal (hexDigit n) = some n := by
  interval_cases n <;> decide

theorem char_ofNat_toNat (c : Char) : Char.ofNat c.toNat = c := by
  rcases c with ⟨v, hv⟩
  simp only [Char.toNat, Char.ofNat, hv, dite_true]
  rfl

theorem hexVal_zero : hexVal '0' = some 0 := by decide

theorem psb_quote (rest : List Char) : parseStringBody ('"' :: rest) = some ([], rest) := rfl

theorem psb_backslash (e c' : Char) (X s r : List Char) (hne : ¬ e = 'u')
    (hu : unescapeChar e = some c') (hp : parseStringBody X = some (s, r)) :
    parseStringBody ('\\' :: e :: X) = some (c' :: s, r) := by
  rw [parseStringBody.eq_def]
  split
  · rename_i heq
    exact List.noConfusion heq
  · rename_i heq
    injection heq with hc9 hr9
    exact absurd hc9 (by decide)
  · rename_i heq
    injection heq with hc9 hr9
    injection hr9 with he9 hr9
    exact absurd he9 hne
  · rename_i heq
    injection heq with hc9 hr9
    injection hr9 with he9 hr9
    rw [← he9, hu, ← hr9, hp]
  · rename_i hq hu2 hb heq
    injection heq with hc9 hr9
    exact absurd (hr9.symm) (fun hh => hb e X hc9.symm hh)

theorem psb_u (a b c2 d : Char) (va vb vc vd : Nat) (X s r : List Char)
    (ha : hexVal a = some va) (hb : hexVal b = some vb) (hc : hexVal c2 = some vc)
    (hd : hexVal d = some vd) (hp : parseStringBody X = some (s, r)) :
    parseStringBody ('\\' :: 'u' :: a :: b :: c2 :: d :: X) =
      some (Char.ofNat (((va * 16 + vb) * 16 + vc) * 16 + vd) :: s, r) := by
  simp only [parseStringBody, ha, hb, hc, hd, hp]

theorem psb_plain (c : Char) (X s r : List Char) (h1 : ¬ c = '"') (h2 : ¬ c = '\\')
    (h8 : ¬ c.toNat < 32) (hp : parseStringBody X = some (s, r)) :
    parseStringBody (c :: X) = some (c :: s, r) := by
  rw [parseStringBody.eq_def]
  split
  · rename_i heq
    exact List.noConfusion heq
  · rename_i heq
    injection heq with hc9 hr9
    exact absurd hc9 h1
  · rename_i heq
    injection heq with hc9 hr9
    exact absurd hc9 h2
  · rename_i heq
    injection heq with hc9 hr9
    exact absurd hc9 h2
  · rename_i heq
    injection heq with hc9 hr9
    rw [← hc9, ← hr9, if_neg h8, hp]

theorem parseStringBody_escape (s : List Char) :
    ∀ rest, parseStringBody (escapeL s ++ '"' :: rest) = some (s, rest) := by
  induction s with
  | nil => intro rest; rfl
  | cons c cs ih =>
    intro rest
    show parseStringBody ((escapeChar c ++ escapeL cs) ++ '"' :: rest) = _
    rw [List.append_assoc]
    by_cases h1 : c = '"'
    · subst h1
      exact psb_backslash _ _ _ _ _ (by decide) (by decide) (ih rest)
    · by_cases h2 : c = '\\'
      · subst h2
        exact psb_backslash _ _ _ _ _ (by decide) (by decide) (ih rest)
      · by_cases h3 : c = '\n'
        · subst h3
          exact psb_backslash _ _ _ _ _ (by decide) (by decide) (ih rest)
        · by_cases h4 : c = '\t'
          · subst h4
            exact psb_backslash _ _ _ _ _ (by decide) (by decide) (ih rest)
          · by_cases h5 : c = '\r'
            · subst h5
              exact psb_backslash _ _ _ _ _ (by decide) (by decide) (ih rest)
            · by_cases h6 : c = '\x08'
              · subst h6
                exact psb_backslash _ _ _ _ _ (by decide) (by decide) (ih rest)
              · by_cases h7 : c = '\x0c'
                · subst h7
                  exact psb_backslash _ _ _ _ _ (by decide) (by decide) (ih rest)
                · by_cases h8 : c.toNat < 32
                  · rw [escapeChar, if_neg h1, if_neg h2, if_neg h3, if_neg h4, if_neg h5,
                      if_neg h6, if_neg h7, if_pos h8]
                    show parseStringBody ('\\' :: 'u' :: '0' :: '0' ::
                      hexDigit (c.toNat / 16) :: hexDigit (c.toNat % 16) ::
                      (escapeL cs ++ '"' :: rest)) = _
                    rw [psb_u _ _ _ _ _ _ _ _ _ _ _ hexVal_zero hexVal_zero
                      (hexVal_hexDigit _ (by omega)) (hexVal_hexDigit _ (by omega)) (ih rest)]
                    have harith : ((0 * 16 + 0) * 16 + c.toNat / 16) * 16 + c.toNat % 16 =
                        c.toNat := by omega
                    rw [harith, char_ofNat_toNat]
                  · have hesc : escapeChar c = [c] := by
                      rw [escapeChar, if_neg h1, if_neg h2, if_neg h3, if_neg h4, if_neg h5,
                        if_neg h6, if_neg h7, if_neg h8]
                    rw [hesc, List.singleton_append]
                    exact psb_plain c _ _ _ h1 h2 h8 (ih rest)

theorem emitVal_head (v : JVal) :
    ∃ c T, emitVal v = c :: T ∧ ¬ c = ']' ∧ ¬ c = '\x7d' ∧ ¬ c = ',' := by
  cases v with
  | jbool b =>
    cases b
    · refine ⟨'f', _, rfl, ?_, ?_, ?_⟩ <;> decide
    · refine ⟨'t', _, rfl, ?_, ?_, ?_⟩ <;> decide
  | jstr s => refine ⟨'"', _, rfl, ?_, ?_, ?_⟩ <;> decide
  | jdate t => refine ⟨'"', _, rfl, ?_, ?_, ?_⟩ <;> decide
  | jarr xs =>
    cases xs
    · refine ⟨'[', _, rfl, ?_, ?_, ?_⟩ <;> decide
    · refine ⟨'[', _, rfl, ?_, ?_, ?_⟩ <;> decide
  | jobj fs =>
    cases fs
    · refine ⟨'\x7b', _, rfl, ?_, ?_, ?_⟩ <;> decide
    · refine ⟨'\x7b', _, rfl, ?_, ?_, ?_⟩ <;> decide

theorem parseVal_true (n : Nat) (rest : List Char) :
    parseVal (n + 1) ('t' :: 'r' :: 'u' :: 'e' :: rest) = some (JVal.jbool true, rest) := rfl

theorem parseVal_false (n : Nat) (rest : List Char) :
    parseVal (n + 1) ('f' :: 'a' :: 'l' :: 's' :: 'e' :: rest) = some (JVal.jbool false, rest) :=
  rfl

theorem parseVal_quote (n : Nat) (rest s r : List Char)
    (hp : parseStringBody rest = some (s, r)) :
    parseVal (n + 1) ('"' :: rest) = some (JVal.jstr (String.mk s), r) := by
  simp only [parseVal, hp]

theorem parseVal_arr_nil (n : Nat) (rest : List Char) :
    parseVal (n + 1) ('[' :: ']' :: rest) = some (JVal.jarr [], rest) := rfl

theorem parseVal_obj_nil (n : Nat) (rest : List Char) :
    parseVal (n + 1) ('\x7b' :: '\x7d' :: rest) = some (JVal.jobj [], rest) := rfl

theorem parseField_quote (n : Nat) (rest kcs Y2 : List Char) (v : JVal) (r2 : List Char)
    (hp : parseStringBody rest = some (kcs, ':' :: Y2))
    (hv : parseVal n Y2 = some (v, r2)) :
    parseField (n + 1) ('"' :: rest) = some ((String.mk kcs, v), r2) := by
  simp only [parseField, hp, hv]

theorem parseArrTail_stop (n : Nat) (rest : List Char) :
    parseArrTail (n + 1) (']' :: rest) = some ([], rest) := rfl

theorem parseArrTail_comma (n : Nat) (Y r1 r2 : List Char) (v1 : JVal) (vs : List JVal)
    (h1 : parseVal n Y = some (v1, r1))
    (h2 : parseArrTail n r1 = some (vs, r2)) :
    parseArrTail (n + 1) (',' :: Y) = some (v1 :: vs, r2) := by
  simp only [parseArrTail, h1, h2]

theorem parseObjTail_stop (n : Nat) (rest : List Char) :
    parseObjTail (n + 1) ('\x7d' :: rest) = some ([], rest) := rfl

theorem parseObjTail_comma (n : Nat) (Y r1 r2 : List Char) (f1 : String × JVal)
    (fs : List (String × JVal))
    (h1 : parseField n Y = some (f1, r1))
    (h2 : parseObjTail n r1 = some (fs, r2)) :
    parseObjTail (n + 1) (',' :: Y) = some (f1 :: fs, r2) := by
  simp only [parseObjTail, h1, h2]

theorem parseVal_lbracket (n : Nat) (Y r1 r2 : List Char) (v1 : JVal) (vs : List JVal)
    (hY : ∀ rr, ¬ Y = ']' :: rr)
    (h1 : parseVal n Y = some (v1, r1))
    (h2 : parseArrTail n r1 = some (vs, r2)) :
    parseVal (n + 1) ('[' :: Y) = some (JVal.jarr (v1 :: vs), r2) := by
  simp only [parseVal]
  rw [h1]
  dsimp only
  rw [h2]

theorem parseVal_lbrace (n : Nat) (Y r1 r2 : List Char) (f1 : String × JVal)
    (fs : List (String × JVal))
    (hY : ∀ rr, ¬ Y = '\x7d' :: rr)
    (h1 : parseField n Y = some (f1, r1))
    (h2 : parseObjTail n r1 = some (fs, r2)) :
    parseVal (n + 1) ('\x7b' :: Y) = some (JVal.jobj (f1 :: fs), r2) := by
  simp only [parseVal]
  rw [h1]
  dsimp only
  rw [h2]

theorem emitVal_length_pos (v : JVal) : 1 ≤ (emitVal v).length := by
  obtain ⟨c, T, he, h⟩ := emitVal_head v
  rw [he]
  simp

theorem emitField_head (f : String × JVal) :
    ∃ T, emitField f = '"' :: T := by
  obtain ⟨k, v⟩ := f
  exact ⟨_, rfl⟩

theorem emitField_length_pos (f : String × JVal) : 1 ≤ (emitField f).length := by
  obtain ⟨T, he⟩ := emitField_head f
  rw [he]
  simp

theorem parse_emit (fuel : Nat) :
    (∀ (v : JVal) (rest : List Char), (emitVal v ++ rest).length < fuel →
      parseVal fuel (emitVal v ++ rest) = some (encodeVal v, rest)) ∧
    (∀ (f : String × JVal) (rest : List Char), (emitField f ++ rest).length < fuel →
      parseField fuel (emitField f ++ rest) = some ((f.1, encodeVal f.2), rest)) ∧
    (∀ (xs : List JVal) (rest : List Char), (emitArrTail xs ++ rest).length < fuel →
      parseArrTail fuel (emitArrTail xs ++ rest) = some (encodeList xs, rest)) ∧
    (∀ (fs : List (String × JVal)) (rest : List Char), (emitObjTail fs ++ rest).length < fuel →
      parseObjTail fuel (emitObjTail fs ++ rest) = some (encodeFields fs, rest)) := by
  induction fuel with
  | zero =>
    refine ⟨?_, ?_, ?_, ?_⟩ <;> (intro a rest h; exact absurd h (Nat.not_lt_zero _))
  | succ n ih =>
    obtain ⟨ihv, ihf, iha, iho⟩ := ih
    refine ⟨?_, ?_, ?_, ?_⟩
    · intro v rest hlen
      cases v with
      | jbool b =>
        cases b with
        | false =>
          simp only [emitVal, encodeVal, List.cons_append, List.nil_append]
          exact parseVal_false n rest
        | true =>
          simp only [emitVal, encodeVal, List.cons_append, List.nil_append]
          exact parseVal_true n rest
      | jstr s =>
        simp only [emitVal, encodeVal, List.cons_append, List.append_assoc,
          List.singleton_append]
        exact parseVal_quote n _ _ _ (parseStringBody_escape s.data rest)
      | jdate t =>
        have hgen : ∀ L : List Char,
            parseVal (n + 1) (('"' :: (escapeL L ++ ['"'])) ++ rest) =
              some (JVal.jstr (String.mk L), rest) := by
          intro L
          simp only [List.cons_append, List.append_assoc, List.singleton_append]
          exact parseVal_quote n _ _ _ (parseStringBody_escape L rest)
        rw [show emitVal (JVal.jdate t) = '"' :: (escapeL (isoChars t) ++ ['"']) from by
          simp only [emitVal]]
        rw [hgen (isoChars t)]
        rw [show encodeVal (JVal.jdate t) = JVal.jstr (isoOfMillis t) from by
          simp only [encodeVal]]
        rw [isoOfMillis]
      | jarr xs =>
        cases xs with
        | nil =>
          simp only [emitVal, encodeVal, encodeList, List.cons_append, List.nil_append]
          exact parseVal_arr_nil n rest
        | cons x xs =>
          simp only [emitVal, encodeVal, encodeList, List.cons_append, List.append_assoc]
          obtain ⟨c, T, he, hne1, hne2, hne3⟩ := emitVal_head x
          have hlx : (emitVal (JVal.jarr (x :: xs)) ++ rest).length =
              (emitVal x).length + (emitArrTail xs).length + rest.length + 1 := by
            simp only [emitVal, List.cons_append, List.length_cons, List.length_append]
            try omega
          rw [hlx] at hlen
          have hv := ihv x (emitArrTail xs ++ rest)
            (by simp only [List.length_append]; omega)
          have ha2 := iha xs rest
            (by have hp := emitVal_length_pos x; simp only [List.length_append]; omega)
          refine parseVal_lbracket n _ _ _ _ _ ?_ hv ha2
          intro rr hcontra
          rw [he, List.cons_append] at hcontra
          injection hcontra with hc9 hr9
          exact hne1 hc9
      | jobj fs =>
        cases fs with
        | nil =>
          simp only [emitVal, encodeVal, encodeFields, List.cons_append, List.nil_append]
          exact parseVal_obj_nil n rest
        | cons f fs =>
          simp only [emitVal, encodeVal, encodeFields, List.cons_append, List.append_assoc]
          obtain ⟨T, he⟩ := emitField_head f
          have hlx : (emitVal (JVal.jobj (f :: fs)) ++ rest).length =
              (emitField f).length + (emitObjTail fs).length + rest.length + 1 := by
            simp only [emitVal, List.cons_append, List.length_cons, List.length_append]
            try omega
          rw [hlx] at hlen
          have hf2 := ihf f (emitObjTail fs ++ rest)
            (by simp only [List.length_append]; omega)
          have ho2 := iho fs rest
            (by have hp := emitField_length_pos f; simp only [List.length_append]; omega)
          refine parseVal_lbrace n _ _ _ _ _ ?_ hf2 ho2
          intro rr hcontra
          rw [he, List.cons_append] at hcontra
          injection hcontra with hc9 hr9
          exact absurd hc9 (by decide)
    · intro f rest hlen
      obtain ⟨k, v⟩ := f
      have hlx : (emitField (k, v) ++ rest).length =
          (escapeL k.data).length + (emitVal v).length + rest.length + 3 := by
        simp only [emitField, List.cons_append, List.length_cons, List.length_append]
        omega
      rw [hlx] at hlen
      simp only [emitField, List.cons_append, List.append_assoc]
      exact parseField_quote n _ _ _ _ _
        (parseStringBody_escape k.data (':' :: (emitVal v ++ rest)))
        (ihv v rest (by simp only [List.length_append]; omega))
    · intro xs rest hlen
      cases xs with
      | nil =>
        simp only [emitArrTail, encodeList, List.cons_append, List.nil_append]
        exact parseArrTail_stop n rest
      | cons x xs =>
        have hlx : (emitArrTail (x :: xs) ++ rest).length =
            (emitVal x).length + (emitArrTail xs).length + rest.length + 1 := by
          simp only [emitArrTail, List.cons_append, List.length_cons, List.length_append]
          try omega
        rw [hlx] at hlen
        simp only [emitArrTail, encodeList, List.cons_append, List.append_assoc]
        have hv := ihv x (emitArrTail xs ++ rest)
          (by simp only [List.length_append]; omega)
        have ha2 := iha xs rest
          (by have hp := emitVal_length_pos x; simp only [List.length_append]; omega)
        exact parseArrTail_comma n _ _ _ _ _ hv ha2
    · intro fs rest hlen
      cases fs with
      | nil =>
        simp only [emitObjTail, encodeFields, List.cons_append, List.nil_append]
        exact parseObjTail_stop n rest
      | cons f fs =>
        have hlx : (emitObjTail (f :: fs) ++ rest).length =
            (emitField f).length + (emitObjTail fs).length + rest.length + 1 := by
          simp only [emitObjTail, List.cons_append, List.length_cons, List.length_append]
          try omega
        rw [hlx] at hlen
        simp only [emitObjTail, encodeFields, List.cons_append, List.append_assoc]
        have hf2 := ihf f (emitObjTail fs ++ rest)
          (by simp only [List.length_append]; omega)
        have ho2 := iho fs rest
          (by have hp := emitField_length_pos f; simp only [List.length_append]; omega)
        exact parseObjTail_comma n _ _ _ _ _ hf2 ho2

theorem jsonParse_stringify (v : JVal) :
    jsonParse (jsonStringify v) = Except.ok (encodeVal v) := by
  have h := (parse_emit ((emitVal v).length + 1)).1 v [] (by simp)
  rw [List.append_nil] at h
  simp only [jsonStringify, jsonParse]
  rw [h]

theorem encodeVal_todoToJ (td : Todo) : encodeVal (todoToJ td) = reloadedTodoJ td := by
  obtain ⟨i, tx, c, ca, ua⟩ := td
  cases ua with
  | none => rfl
  | some u => rfl

theorem isoToMillis_isoOfMillis (t : Nat) : isoToMillis (isoOfMillis t) = some t := by
  rw [isoToMillis, show (isoOfMillis t).data = isoChars t from rfl, iso_roundtrip]

theorem decodeTodo_fields (i tx : String) (c : Bool) (S : String) (ca : Nat)
    (hD : isoToMillis S = some ca) :
    decodeTodo (JVal.jobj [("id", JVal.jstr i), ("text", JVal.jstr tx),
      ("completed", JVal.jbool c), ("createdAt", JVal.jstr S)]) =
    some (Todo.mk i tx c ca none) := by
  show (match isoToMillis S with
    | some t => some (Todo.mk i tx c t none)
    | none => none) = some (Todo.mk i tx c ca none)
  rw [hD]

theorem decodeTodo_fields2 (i tx : String) (c : Bool) (S U : String) (ca u : Nat)
    (hD : isoToMillis S = some ca) (hE : isoToMillis U = some u) :
    decodeTodo (JVal.jobj [("id", JVal.jstr i), ("text", JVal.jstr tx),
      ("completed", JVal.jbool c), ("createdAt", JVal.jstr S),
      ("updatedAt", JVal.jstr U)]) =
    some (Todo.mk i tx c ca (some u)) := by
  show (match isoToMillis S, isoToMillis U with
    | some t, some tu => some (Todo.mk i tx c t (some tu))
    | _, _ => none) = some (Todo.mk i tx c ca (some u))
  rw [hD, hE]

theorem decodeTodo_reloaded (td : Todo) : decodeTodo (reloadedTodoJ td) = some td := by
  obtain ⟨i, tx, c, ca, ua⟩ := td
  cases ua with
  | none =>
    rw [show reloadedTodoJ (Todo.mk i tx c ca none) = JVal.jobj [("id", JVal.jstr i),
      ("text", JVal.jstr tx), ("completed", JVal.jbool c),
      ("createdAt", JVal.jstr (isoOfMillis ca))] from rfl]
    exact decodeTodo_fields i tx c (isoOfMillis ca) ca (isoToMillis_isoOfMillis ca)
  | some u =>
    rw [show reloadedTodoJ (Todo.mk i tx c ca (some u)) = JVal.jobj [("id", JVal.jstr i),
      ("text", JVal.jstr tx), ("completed", JVal.jbool c),
      ("createdAt", JVal.jstr (isoOfMillis ca)),
      ("updatedAt", JVal.jstr (isoOfMillis u))] from rfl]
    exact decodeTodo_fields2 i tx c (isoOfMillis ca) (isoOfMillis u) ca u
      (isoToMillis_isoOfMillis ca) (isoToMillis_isoOfMillis u)

theorem persistTodos_ne_empty (l : List Todo) : ¬ persistTodos l = "" := by
  intro h
  obtain ⟨c, T, he, hr⟩ := emitVal_head (JVal.jarr (l.map todoToJ))
  have h2 : emitVal (JVal.jarr (l.map todoToJ)) = ([] : List Char) := congrArg String.data h
  rw [he] at h2
  exact List.noConfusion h2

theorem encodeList_map (l : List Todo) :
    encodeList (l.map todoToJ) = l.map reloadedTodoJ := by
  induction l with
  | nil => rfl
  | cons td l ih =>
    simp only [List.map_cons]
    rw [show encodeList (todoToJ td :: List.map todoToJ l) =
      encodeVal (todoToJ td) :: encodeList (List.map todoToJ l) from rfl]
    rw [encodeVal_todoToJ, ih]

theorem mapM_decode (l : List Todo) :
    (l.map reloadedTodoJ).mapM decodeTodo = some l := by
  induction l with
  | nil => rfl
  | cons td l ih =>
    simp only [List.map_cons, List.mapM_cons, decodeTodo_reloaded, ih, Option.pure_def,
      Option.bind_eq_bind, Option.some_bind]

/-! ## The claims -/


theorem todos_roundtrip (l : List Todo) :
    initTodos (some (persistTodos l)) = Except.ok (JVal.jarr (l.map reloadedTodoJ)) ∧
    decodeTodos (JVal.jarr (l.map reloadedTodoJ)) = some l := by
  constructor
  · rw [show initTodos (some (persistTodos l)) =
      (if persistTodos l = "" then Except.ok (JVal.jarr []) else jsonParse (persistTodos l))
      from rfl]
    rw [if_neg (persistTodos_ne_empty l), persistTodos, jsonParse_stringify]
    rw [show encodeVal (JVal.jarr (l.map todoToJ)) =
      JVal.jarr (encodeList (l.map todoToJ)) from rfl]
    rw [encodeList_map]
  · rw [show decodeTodos (JVal.jarr (l.map reloadedTodoJ)) =
      (l.map reloadedTodoJ).mapM decodeTodo from rfl]
    exact mapM_decode l

/-- Claim C3: when the trimmed input is empty, `addTodo` leaves the whole
state (collection included) unchanged and reports the distinguishable
empty-input validation error. -/
theorem addTodo_empty_input (st : AppState) (newId : String) (now : Nat)
    (h : st.inputValue.trim = "") :
    addTodo st newId now = (st, Toast.error "Please enter a task!") := by
  rw [addTodo, if_pos h]

/-- Claim C3 at a concrete whitespace-only input. -/
theorem addTodo_empty_input_witness :
    addTodo ⟨[], "   ", none, "", false⟩ "a" 0 =
      (⟨[], "   ", none, "", false⟩, Toast.error "Please enter a task!") :=
  addTodo_empty_input ⟨[], "   ", none, "", false⟩ "a" 0
    (by simp +decide [String.trim, Substring.trim, Substring.takeWhileAux, Substring.takeRightWhileAux])

/-- Claim C2: when the trimmed input is non-empty and the generated id is
fresh, `addTodo` appends exactly one task at the end — its text the
trimmed input, `completed = false`, `createdAt = now`, no `updatedAt` —
grows the collection by exactly one, leaves every pre-existing task
unchanged (they form the prefix), preserves id-uniqueness, and raises the
success toast. -/
theorem addTodo_creates (st : AppState) (newId : String) (now : Nat)
    (hne : ¬ st.inputValue.trim = "")
    (hfresh : ¬ newId ∈ st.todos.map Todo.id) :
    (addTodo st newId now).1.todos =
      st.todos ++ [Todo.mk newId st.inputValue.trim false now none] ∧
    (addTodo st newId now).1.todos.length = st.todos.length + 1 ∧
    ((st.todos.map Todo.id).Nodup → ((addTodo st newId now).1.todos.map Todo.id).Nodup) ∧
    (addTodo st newId now).2 = Toast.success "Task added successfully!" := by
  rw [addTodo, if_neg hne]
  refine ⟨rfl, by simp, ?_, rfl⟩
  intro hnd
  simp only [List.map_append, List.map_cons, List.map_nil]
  rw [List.nodup_append]
  refine ⟨hnd, List.nodup_singleton _, ?_⟩
  intro a ha hb
  simp only [List.mem_singleton] at hb
  subst hb
  exact hfresh ha

/-- Claim C2 at a concrete input. -/
theorem addTodo_creates_witness :
    (addTodo ⟨[], "hi", none, "", false⟩ "a" 0).1.todos =
      [Todo.mk "a" "hi" false 0 none] := by
  have h := addTodo_creates ⟨[], "hi", none, "", false⟩ "a" 0
    (by simp +decide [String.trim, Substring.trim, Substring.takeWhileAux, Substring.takeRightWhileAux]) (by simp)
  have ht : "hi".trim = "hi" := by
    simp +decide [String.trim, Substring.trim, Substring.takeWhileAux,
      Substring.takeRightWhileAux]
  rw [ht] at h
  simpa using h.1

/-- Claim C5: saving an edit whose trimmed text is empty changes nothing —
the state, hence every field of every task, is untouched — reports the
empty-input error, and the transient edit selection remains on the edited
id. -/
theorem saveEdit_empty_keeps_selection (st : AppState) (id : String) (now : Nat)
    (hsel : st.editingId = some id) (h : st.editValue.trim = "") :
    saveEdit st id now = (st, Toast.error "Task cannot be empty!") ∧
    (saveEdit st id now).1.editingId = some id := by
  constructor
  · rw [saveEdit, if_pos h]
  · rw [saveEdit, if_pos h]
    exact hsel

/-- Claim C5 at a concrete input. -/
theorem saveEdit_empty_keeps_selection_witness :
    saveEdit ⟨[], "", some "a", "  ", false⟩ "a" 0 =
      (⟨[], "", some "a", "  ", false⟩, Toast.error "Task cannot be empty!") ∧
    (saveEdit ⟨[], "", some "a", "  ", false⟩ "a" 0).1.editingId = some "a" :=
  saveEdit_empty_keeps_selection ⟨[], "", some "a", "  ", false⟩ "a" 0 rfl
    (by simp +decide [String.trim, Substring.trim, Substring.takeWhileAux, Substring.takeRightWhileAux])

/-- Claim C10: saving a non-empty edit for an id absent from the
collection leaves every task unchanged, yet still clears the transient edit
selection and reports success rather than an error. -/
theorem saveEdit_unknown_id (st : AppState) (id : String) (now : Nat)
    (hid : ¬ id ∈ st.todos.map Todo.id) (hne : ¬ st.editValue.trim = "") :
    (saveEdit st id now).1.todos = st.todos ∧
    (saveEdit st id now).1.editingId = none ∧
    (saveEdit st id now).2 = Toast.success "Task updated successfully!" := by
  rw [saveEdit, if_neg hne]
  refine ⟨?_, rfl, rfl⟩
  have hpt : ∀ t ∈ st.todos,
      (if t.id = id then { t with text := st.editValue.trim, updatedAt := some now } else t)
        = t := by
    intro t ht
    refine if_neg ?_
    intro hh
    exact hid (hh ▸ List.mem_map_of_mem Todo.id ht)
  calc st.todos.map (fun t =>
          if t.id = id then { t with text := st.editValue.trim, updatedAt := some now } else t)
      = st.todos.map (fun t => t) := List.map_congr_left hpt
    _ = st.todos := List.map_id _

/-- Claim C10 at a concrete input. -/
theorem saveEdit_unknown_id_witness :
    (saveEdit ⟨[Todo.mk "a" "A" false 0 none], "", some "a", "new", false⟩ "zz" 9).1.todos =
      [Todo.mk "a" "A" false 0 none] ∧
    (saveEdit ⟨[Todo.mk "a" "A" false 0 none], "", some "a", "new", false⟩ "zz" 9).1.editingId =
      none ∧
    (saveEdit ⟨[Todo.mk "a" "A" false 0 none], "", some "a", "new", false⟩ "zz" 9).2 =
      Toast.success "Task updated successfully!" :=
  saveEdit_unknown_id ⟨[Todo.mk "a" "A" false 0 none], "", some "a", "new", false⟩ "zz" 9
    (by decide)
    (by simp +decide [String.trim, Substring.trim, Substring.takeWhileAux, Substring.takeRightWhileAux])

/-- Claim C6: toggling or deleting an id not present in the collection
leaves the collection unchanged (a silent no-op, not an error), and after a
delete a second delete of the same id leaves the collection unchanged. -/
theorem unknown_id_silent_noop (st : AppState) (id id2 : String) (now : Nat)
    (hid : ¬ id ∈ st.todos.map Todo.id) :
    (toggleTodo st id now).1.todos = st.todos ∧
    (deleteTodo st id).1.todos = st.todos ∧
    (deleteTodo (deleteTodo st id2).1 id2).1.todos = (deleteTodo st id2).1.todos := by
  refine ⟨?_, ?_, ?_⟩
  · have hpt : ∀ t ∈ st.todos,
        (if t.id = id then { t with completed := !t.completed, updatedAt := some now } else t)
          = t := by
      intro t ht
      refine if_neg ?_
      intro hh
      exact hid (hh ▸ List.mem_map_of_mem Todo.id ht)
    calc st.todos.map (fun t =>
            if t.id = id then { t with completed := !t.completed, updatedAt := some now }
            else t)
        = st.todos.map (fun t => t) := List.map_congr_left hpt
      _ = st.todos := List.map_id _
  · refine List.filter_eq_self.mpr ?_
    intro t ht
    refine decide_eq_true ?_
    intro hh
    exact hid (hh ▸ List.mem_map_of_mem Todo.id ht)
  · simp only [deleteTodo]
    refine List.filter_eq_self.mpr ?_
    intro t ht
    rw [List.mem_filter] at ht
    exact ht.2

/-- Claim C6 at a concrete input. -/
theorem unknown_id_silent_noop_witness :
    (toggleTodo ⟨[Todo.mk "a" "A" false 0 none], "", none, "", false⟩ "zz" 5).1.todos =
      [Todo.mk "a" "A" false 0 none] ∧
    (deleteTodo ⟨[Todo.mk "a" "A" false 0 none], "", none, "", false⟩ "zz").1.todos =
      [Todo.mk "a" "A" false 0 none] ∧
    (deleteTodo (deleteTodo ⟨[Todo.mk "a" "A" false 0 none], "", none, "", false⟩
        "a").1 "a").1.todos =
      (deleteTodo ⟨[Todo.mk "a" "A" false 0 none], "", none, "", false⟩ "a").1.todos :=
  unknown_id_silent_noop ⟨[Todo.mk "a" "A" false 0 none], "", none, "", false⟩ "zz" "a" 5
    (by decide)

/-- Claim C7: for an id present in the collection, two consecutive toggles
return every task — id, text, `completed` flag, `createdAt` — to its
original value: toggle is an involution on the completed flag (only the
incidental `updatedAt` bookkeeping field differs). -/
theorem toggle_toggle_completed (st : AppState) (id : String) (now now2 : Nat)
    (hid : id ∈ st.todos.map Todo.id) :
    ((toggleTodo (toggleTodo st id now).1 id now2).1.todos).map
        (fun t => (t.id, t.text, t.completed, t.createdAt)) =
      st.todos.map (fun t => (t.id, t.text, t.completed, t.createdAt)) := by
  simp only [toggleTodo, List.map_map]
  refine List.map_congr_left ?_
  intro t ht
  by_cases h : t.id = id
  · simp only [Function.comp, if_pos h]
    simp [Bool.not_not]
  · simp only [Function.comp, if_neg h]

/-- Claim C7 at a concrete input. -/
theorem toggle_toggle_completed_witness :
    ((toggleTodo (toggleTodo ⟨[Todo.mk "a" "A" false 0 none], "", none, "", false⟩
        "a" 1).1 "a" 2).1.todos).map (fun t => (t.id, t.text, t.completed, t.createdAt)) =
      [Todo.mk "a" "A" false 0 none].map (fun t => (t.id, t.text, t.completed, t.createdAt)) :=
  toggle_toggle_completed ⟨[Todo.mk "a" "A" false 0 none], "", none, "", false⟩ "a" 1 2
    (by decide)

/-- Claim C9: collection order is insertion order: `addTodo` appends at
the end (or changes nothing), `toggleTodo` and `saveEdit` replace tasks in
place without moving them, and `deleteTodo` keeps the surviving tasks in
their relative order (a sublist); no operation reorders. -/
theorem order_insertion (st : AppState) (newId : String) (now : Nat) (id : String) :
    (addTodo st newId now).1.todos =
      st.todos ++ (if st.inputValue.trim = "" then []
        else [Todo.mk newId st.inputValue.trim false now none]) ∧
    (toggleTodo st id now).1.todos.map (fun t => (t.id, t.text, t.createdAt)) =
      st.todos.map (fun t => (t.id, t.text, t.createdAt)) ∧
    (saveEdit st id now).1.todos.map (fun t => (t.id, t.completed, t.createdAt)) =
      st.todos.map (fun t => (t.id, t.completed, t.createdAt)) ∧
    (deleteTodo st id).1.todos.Sublist st.todos := by
  refine ⟨?_, ?_, ?_, ?_⟩
  · rw [addTodo]
    split
    · simp
    · rfl
  · simp only [toggleTodo, List.map_map]
    refine List.map_congr_left ?_
    intro t ht
    by_cases h : t.id = id
    · simp only [Function.comp, if_pos h]
    · simp only [Function.comp, if_neg h]
  · rw [saveEdit]
    split
    · rfl
    · simp only [List.map_map]
      refine List.map_congr_left ?_
      intro t ht
      by_cases h : t.id = id
      · simp only [Function.comp, if_pos h]
      · simp only [Function.comp, if_neg h]
  · simp only [deleteTodo]
    exact List.filter_sublist _

theorem fold_toggle_all_done (now : Nat) : ∀ (pend : List String) (st : AppState),
    pend.Nodup →
    (∀ t ∈ st.todos, (t.completed = false ↔ t.id ∈ pend)) →
    ∀ t ∈ (pend.foldl (fun s i => (toggleTodo s i now).1) st).todos, t.completed = true := by
  intro pend
  induction pend with
  | nil =>
    intro st hnd hinv t ht
    simp only [List.foldl_nil] at ht
    have := hinv t ht
    simp only [List.not_mem_nil, iff_false] at this
    cases hc : t.completed with
    | true => rfl
    | false => exact absurd hc this
  | cons i rest ih =>
    intro st hnd hinv t ht
    rw [List.foldl_cons] at ht
    refine ih (toggleTodo st i now).1 (List.Nodup.of_cons hnd) ?_ t ht
    intro u hu
    simp only [toggleTodo] at hu
    obtain ⟨v, hv, rfl⟩ := List.mem_map.mp hu
    by_cases hvi : v.id = i
    · have hvf : v.completed = false :=
        (hinv v hv).mpr (by rw [hvi]; exact List.mem_cons_self _ _)
    
      rw [if_pos hvi]
      simp only [hvf, Bool.not_false]
      constructor
      · intro hcontra
        exact absurd hcontra (by simp)
      · intro hmem
        rw [hvi] at hmem
        exact absurd hmem (List.nodup_cons.mp hnd).1
    · rw [if_neg hvi]
      rw [hinv v hv, List.mem_cons]
      constructor
      · intro hh
        rcases hh with hh | hh
        · exact absurd hh hvi
        · exact hh
      · intro hh
        exact Or.inr hh

/-- Claim C8: `remaining` always equals the count of tasks whose completed
flag is false — it is recomputed from the collection, never stored — and
after toggling every incomplete task (ids being unique, as creation
guarantees) it equals 0. -/
theorem remaining_derived (st : AppState) (now : Nat)
    (hnd : (st.todos.map Todo.id).Nodup) :
    remaining st = (st.todos.filter fun t => !t.completed).length ∧
    remaining (((st.todos.filter fun t => !t.completed).map Todo.id).foldl
      (fun s i => (toggleTodo s i now).1) st) = 0 := by
  refine ⟨rfl, ?_⟩
  have hpend : ((st.todos.filter fun t => !t.completed).map Todo.id).Nodup := by
    refine List.Nodup.sublist ?_ hnd
    exact List.Sublist.map Todo.id (List.filter_sublist _)
  have hinv : ∀ t ∈ st.todos,
      (t.completed = false ↔ t.id ∈ (st.todos.filter fun t => !t.completed).map Todo.id) := by
    intro t ht
    constructor
    · intro hc
      refine List.mem_map_of_mem Todo.id ?_
      refine List.mem_filter.mpr ⟨ht, ?_⟩
      simp [hc]
    · intro hmem
      obtain ⟨u, humem, huid⟩ := List.mem_map.mp hmem
      have hu2 := List.mem_filter.mp humem
      have huc : u.completed = false := by
        have := hu2.2
        simp at this
        exact this
      have : u = t := List.inj_on_of_nodup_map hnd hu2.1 ht huid
      rw [← this]
      exact huc
  have hall := fold_toggle_all_done now ((st.todos.filter fun t => !t.completed).map Todo.id)
    st hpend hinv
  rw [remaining]
  rw [List.length_eq_zero]
  rw [List.filter_eq_nil_iff]
  intro t ht
  have := hall t ht
  simp [this]

/-- Claim C8 at a concrete input. -/
theorem remaining_derived_witness :
    remaining ⟨[Todo.mk "a" "A" false 0 none], "", none, "", false⟩ =
      ([Todo.mk "a" "A" false 0 none].filter fun t => !t.completed).length ∧
    remaining ((((⟨[Todo.mk "a" "A" false 0 none], "", none, "", false⟩ : AppState).todos.filter
        fun t => !t.completed).map Todo.id).foldl (fun s i => (toggleTodo s i 5).1)
      ⟨[Todo.mk "a" "A" false 0 none], "", none, "", false⟩) = 0 :=
  remaining_derived ⟨[Todo.mk "a" "A" false 0 none], "", none, "", false⟩ 5 (by decide)

/-- Claim C1, amended: at startup an absent `todos` or `darkMode` key —
or one holding the empty string, which the JS truthiness test also sends to
the default branch — initializes to the empty list resp. `false`; but a
stored non-empty string that fails to parse is NOT tolerated: the
`JSON.parse` error propagates out of the `useState` initializer (there is
no try/catch around it), contradicting the claim as written. -/
theorem init_defaults_and_raises :
    initTodos none = Except.ok (JVal.jarr []) ∧
    initDarkMode none = Except.ok (JVal.jbool false) ∧
    initTodos (some "") = Except.ok (JVal.jarr []) ∧
    initDarkMode (some "") = Except.ok (JVal.jbool false) ∧
    (∀ s e, ¬ s = "" → jsonParse s = Except.error e →
      initTodos (some s) = Except.error e) := by
  refine ⟨rfl, rfl, rfl, rfl, ?_⟩
  intro s e hne hp
  rw [show initTodos (some s) =
    (if s = "" then Except.ok (JVal.jarr []) else jsonParse s) from rfl]
  rw [if_neg hne, hp]

/-- Claim C1 (amended) at a concrete malformed stored string. -/
theorem init_defaults_and_raises_witness :
    initTodos (some "\x7b") = Except.error "Unexpected token" :=
  init_defaults_and_raises.2.2.2.2 "\x7b" "Unexpected token" (by decide) rfl

/-- Counterexample to claim C1 as written: the stored string of the single
opening-brace character fails to parse, and `initTodos` propagates the
error instead of defaulting to the empty list. -/
theorem initTodos_malformed_raises :
    initTodos (some "\x7b") = Except.error "Unexpected token" ∧
    ¬ initTodos (some "\x7b") = Except.ok (JVal.jarr []) := by
  refine ⟨rfl, ?_⟩
  intro h
  rw [show initTodos (some "\x7b") = Except.error "Unexpected token" from rfl] at h
  exact Except.noConfusion h

/-- Claim C4: persisting the collection under the `todos` key and
reloading from storage reproduces an equal collection — the stored string
parses back to exactly the serialized array, and decoding it recovers the
same ids, texts, completed flags, and timestamps (`createdAt`, and
`updatedAt` where present), the dates having survived the ISO round trip. -/
theorem persist_reload_roundtrip (l : List Todo) (store : String → Option String) :
    initTodos (getItem (setItem store "todos" (persistTodos l)) "todos") =
      Except.ok (JVal.jarr (l.map reloadedTodoJ)) ∧
    decodeTodos (JVal.jarr (l.map reloadedTodoJ)) = some l := by
  have hg : getItem (setItem store "todos" (persistTodos l)) "todos" =
      some (persistTodos l) := by
    simp [getItem, setItem]
  rw [hg]
  exact todos_roundtrip l
